import Mathlib

/-!
Shallow embedding of the Raft-based distributed KV cache
(`raft_node.py`, `cache.py`, `http_server.py`).

Conventions of the embedding:
* Python ints are `Nat` (terms, indices, counters never go negative in the source).
* `time.time()` readings are `Nat` parameters (`now`); only their ordering matters.
* Python dicts keyed by node id (`next_index`, `match_index`) are association
  lists with insertion-order update semantics and default 0 on lookup
  (both dicts are initialized to hold every peer).
* The network is explicit: an RPC exchange is modelled by passing the remote
  response (`Option` = response or exception/timeout) as an argument; the
  concurrent `asyncio.gather` of per-peer requests is modelled by processing
  the per-peer responses sequentially in cluster order, which is one admissible
  interleaving of the cooperative scheduler.
* `LogEntry.timestamp` (write-only metadata in the source) is omitted.
-/

namespace RaftDemo

/-- Cache commands carried by log entries (`cache.apply_command` dispatches on
the `operation` field; unrecognized operations are ignored). -/
inductive Command where
  | set (key : String) (value : Int) (ttl : Option Nat)
  | del (key : String)
  | clear
  | unknown
deriving DecidableEq, Repr

/-- `LogEntry` from `raft_node.py` (term, command, 1-based index, committed flag). -/
structure LogEntry where
  term : Nat
  command : Command
  index : Nat
  committed : Bool := false
deriving DecidableEq, Repr

/-- `NodeState` enum from `raft_node.py`. -/
inductive NodeState where
  | follower
  | candidate
  | leader
deriving DecidableEq, Repr

/-- Association-list model of a Python dict from node id to Nat
(`next_index` / `match_index`): lookup with default 0. -/
def alistGet (l : List (String × Nat)) (k : String) : Nat :=
  ((l.find? (fun p => p.1 = k)).map (fun p => p.2)).getD 0

/-- Dict update: replace in place if the key is present (keeping its
position), otherwise append. -/
def alistSet (l : List (String × Nat)) (k : String) (v : Nat) : List (String × Nat) :=
  if (l.find? (fun p => p.1 = k)).isSome then
    l.map (fun p => if p.1 = k then (k, v) else p)
  else
    l ++ [(k, v)]

/-- The mutable state of `RaftNode` (fields used by the verified operations). -/
structure RaftState where
  nodeId : String
  cluster : List String
  state : NodeState
  currentTerm : Nat
  votedFor : Option String
  log : List LogEntry
  commitIndex : Nat
  lastApplied : Nat
  nextIndex : List (String × Nat)
  matchIndex : List (String × Nat)
  lastHeartbeat : Nat
deriving DecidableEq, Repr

/-- `self.log[-1].term if self.log else 0`. -/
def lastLogTermOf (log : List LogEntry) : Nat :=
  ((log.getLast?).map (fun e => e.term)).getD 0

/-- Term of the entry at 1-based index `i` (`self.log[i - 1].term`); total
with default 0, used only under guards that make the access in-range. -/
def termAt (log : List LogEntry) (i : Nat) : Nat :=
  ((log.get? (i - 1)).map (fun e => e.term)).getD 0

/-- Mark entries at 0-based positions `lo ≤ p < hi` as committed
(the flag updates done by `_apply_committed_entries`). -/
def markCommitted : Nat → Nat → List LogEntry → List LogEntry
  | _, _, [] => []
  | lo, hi, e :: rest =>
    (if lo = 0 ∧ 0 < hi then { e with committed := true } else e)
      :: markCommitted (lo - 1) (hi - 1) rest

/-- `RaftNode._apply_committed_entries`: advance `last_applied` to
`commit_index` one entry at a time, marking each applied entry committed
(and handing its command to the on-commit callback, i.e. the cache, which is
modelled separately). -/
def applyCommittedEntries (st : RaftState) : RaftState :=
  { st with
      log := markCommitted st.lastApplied st.commitIndex st.log
      lastApplied := max st.lastApplied st.commitIndex }

/-- RequestVote RPC request payload. -/
structure VoteRequest where
  term : Nat
  candidateId : String
  lastLogIndex : Nat
  lastLogTerm : Nat
deriving DecidableEq, Repr

/-- RequestVote RPC response payload. -/
structure VoteResponse where
  term : Nat
  voteGranted : Bool
deriving DecidableEq, Repr

/-- AppendEntries RPC request payload. -/
structure AppendRequest where
  term : Nat
  leaderId : String
  prevLogIndex : Nat
  prevLogTerm : Nat
  entries : List LogEntry
  leaderCommit : Nat
deriving DecidableEq, Repr

/-- AppendEntries RPC response payload. -/
structure AppendResponse where
  term : Nat
  success : Bool
deriving DecidableEq, Repr

/-- `RaftNode.handle_request_vote` (`now` is the `time.time()` reading used to
reset the election timer). -/
def handle_request_vote (st : RaftState) (req : VoteRequest) (now : Nat) :
    RaftState × VoteResponse :=
  -- Update term if necessary
  let st1 :=
    if req.term > st.currentTerm then
      { st with currentTerm := req.term, votedFor := none, state := NodeState.follower }
    else st
  -- Check if we can grant the vote
  if req.term ≥ st1.currentTerm ∧
      (st1.votedFor = none ∨ st1.votedFor = some req.candidateId) then
    -- Check if candidate's log is at least as up-to-date as ours
    let ourLastLogIndex := st1.log.length
    let ourLastLogTerm := lastLogTermOf st1.log
    if req.lastLogTerm > ourLastLogTerm ∨
        (req.lastLogTerm = ourLastLogTerm ∧ req.lastLogIndex ≥ ourLastLogIndex) then
      ({ st1 with votedFor := some req.candidateId, lastHeartbeat := now },
        { term := st1.currentTerm, voteGranted := true })
    else
      (st1, { term := st1.currentTerm, voteGranted := false })
  else
    (st1, { term := st1.currentTerm, voteGranted := false })

/-- `RaftNode.handle_append_entries`. -/
def handle_append_entries (st : RaftState) (req : AppendRequest) (now : Nat) :
    RaftState × AppendResponse :=
  -- Update term if necessary
  let st1 :=
    if req.term > st.currentTerm then
      { st with currentTerm := req.term, votedFor := none }
    else st
  if req.term ≥ st1.currentTerm then
    let st2 := { st1 with state := NodeState.follower, lastHeartbeat := now }
    -- Check if previous log entry matches
    if req.prevLogIndex = 0 ∨
        (req.prevLogIndex ≤ st2.log.length ∧
          termAt st2.log req.prevLogIndex = req.prevLogTerm) then
      -- Remove conflicting entries and append new ones
      let st3 :=
        if req.entries = [] then st2
        else
          let truncated :=
            if req.prevLogIndex < st2.log.length then st2.log.take req.prevLogIndex
            else st2.log
          { st2 with log := truncated ++ req.entries }
      -- Update commit index
      let st4 :=
        if req.leaderCommit > st3.commitIndex then
          applyCommittedEntries
            { st3 with commitIndex := min req.leaderCommit st3.log.length }
        else st3
      (st4, { term := st4.currentTerm, success := true })
    else
      (st2, { term := st2.currentTerm, success := false })
  else
    (st1, { term := st1.currentTerm, success := false })

/-- `RaftNode._send_append_entries` to peer `peer`: build the request from the
leader's `next_index` and log, then process the peer's response (`none`
models an exception or timeout, which only logs a warning). -/
def sendAppendEntries (st : RaftState) (peer : String)
    (resp : Option AppendResponse) : RaftState :=
  let prevLogIndex := alistGet st.nextIndex peer - 1
  let entries :=
    if alistGet st.nextIndex peer ≤ st.log.length then
      st.log.drop (alistGet st.nextIndex peer - 1)
    else []
  match resp with
  | none => st
  | some r =>
    if r.term > st.currentTerm then
      { st with
          currentTerm := r.term
          state := NodeState.follower
          votedFor := none }
    else if r.success then
      -- Update next_index and match_index
      if entries = [] then st
      else
        { st with
            matchIndex := alistSet st.matchIndex peer (prevLogIndex + entries.length)
            nextIndex := alistSet st.nextIndex peer (prevLogIndex + entries.length + 1) }
    else
      -- Decrement next_index and retry
      { st with nextIndex := alistSet st.nextIndex peer (max 1 (alistGet st.nextIndex peer - 1)) }

/-- Process the AppendEntries exchanges of one replication round: one
`_send_append_entries` per peer other than self, in cluster order. -/
def processAppendRound (st : RaftState) (responses : String → Option AppendResponse) :
    RaftState :=
  (st.cluster.filter (fun n => n ≠ st.nodeId)).foldl
    (fun s n => sendAppendEntries s n (responses n)) st

/-- The replication count of `_replicate_entry`: the leader counts as one,
plus every other node whose `match_index` is at least `idx`. -/
def replicatedCount (st : RaftState) (idx : Nat) : Nat :=
  1 + (st.cluster.filter
        (fun n => n ≠ st.nodeId ∧ alistGet st.matchIndex n ≥ idx)).length

/-- Majority threshold `(len(self.cluster_nodes) // 2) + 1`. -/
def majorityOf (st : RaftState) : Nat :=
  st.cluster.length / 2 + 1

/-- `RaftNode._replicate_entry`. -/
def replicateEntry (st : RaftState) (entry : LogEntry)
    (responses : String → Option AppendResponse) : RaftState × Bool :=
  -- Send to all followers
  let st1 := processAppendRound st responses
  -- Check if majority has replicated
  if replicatedCount st1 entry.index ≥ majorityOf st1 then
    -- Update commit index
    if entry.index > st1.commitIndex then
      (applyCommittedEntries { st1 with commitIndex := entry.index }, true)
    else (st1, true)
  else
    (st1, false)

/-- `RaftNode.propose_command`. -/
def propose_command (st : RaftState) (command : Command)
    (responses : String → Option AppendResponse) : RaftState × Bool :=
  if st.state ≠ NodeState.leader then (st, false)
  else
    -- Add entry to log
    let entry : LogEntry := { term := st.currentTerm, command := command,
                              index := st.log.length + 1 }
    let st1 := { st with log := st.log ++ [entry] }
    -- Try to replicate to majority
    replicateEntry st1 entry responses

/-- `RaftNode._request_vote` to one peer: process the response (term rule),
return whether the vote was granted (`none` models an exception, returning
`false`). -/
def requestVoteFrom (st : RaftState) (resp : Option VoteResponse) :
    RaftState × Bool :=
  match resp with
  | none => (st, false)
  | some r =>
    let st1 :=
      if r.term > st.currentTerm then
        { st with currentTerm := r.term, state := NodeState.follower, votedFor := none }
      else st
    (st1, r.voteGranted)

/-- `RaftNode._become_leader`: switch to leader and reinitialize the
per-peer `next_index` / `match_index` tables. -/
def becomeLeader (st : RaftState) : RaftState :=
  { st with
      state := NodeState.leader
      nextIndex := (st.cluster.filter (fun n => n ≠ st.nodeId)).foldl
        (fun t n => alistSet t n (st.log.length + 1)) st.nextIndex
      matchIndex := (st.cluster.filter (fun n => n ≠ st.nodeId)).foldl
        (fun t n => alistSet t n 0) st.matchIndex }

/-- `RaftNode._start_election`: become candidate, bump the term, vote for
self, reset the election timer, gather votes from all peers, and either win
(majority of grants while still candidate) or fall back to follower. -/
def startElection (st : RaftState) (now : Nat)
    (responses : String → Option VoteResponse) : RaftState :=
  let st1 := { st with
      state := NodeState.candidate
      currentTerm := st.currentTerm + 1
      votedFor := some st.nodeId
      lastHeartbeat := now }
  let gathered := (st1.cluster.filter (fun n => n ≠ st1.nodeId)).foldl
    (fun (p : RaftState × Nat) n =>
      let out := requestVoteFrom p.1 (responses n)
      (out.1, if out.2 then p.2 + 1 else p.2))
    (st1, 1)
  let st2 := gathered.1
  if gathered.2 ≥ majorityOf st2 ∧ st2.state = NodeState.candidate then
    becomeLeader st2
  else
    { st2 with state := NodeState.follower }

/-! ## Cache state machine (`cache.py`) -/

/-- `MAX_CACHE_SIZE` from `config.py`. -/
def MAX_CACHE_SIZE : Nat := 10000

/-- `CacheEntry` from `cache.py` (`key`, `value`, `created_at`,
`accessed_at`, `access_count`, `ttl`, `expires_at`). -/
structure CacheEntry where
  key : String
  value : Int
  createdAt : Nat
  accessedAt : Nat
  accessCount : Nat
  ttl : Option Nat
  expiresAt : Option Nat
deriving DecidableEq, Repr

/-- `CacheEntry.__init__`: note the Python truthiness test
`self.created_at + ttl if ttl else None`, under which both `ttl = None`
and `ttl = 0` leave `expires_at = None`. -/
def CacheEntry.mk0 (key : String) (value : Int) (ttl : Option Nat) (now : Nat) :
    CacheEntry :=
  { key := key
    value := value
    createdAt := now
    accessedAt := now
    accessCount := 0
    ttl := ttl
    expiresAt := match ttl with
      | some t => if t ≠ 0 then some (now + t) else none
      | none => none }

/-- `CacheEntry.is_expired` at clock reading `now` (`time.time() > expires_at`). -/
def CacheEntry.isExpired (e : CacheEntry) (now : Nat) : Bool :=
  match e.expiresAt with
  | none => false
  | some x => now > x

/-- The cache dict: a list of entries in Python dict iteration order
(insertion order; updating an existing key keeps its position). -/
abbrev Cache := List CacheEntry

/-- Dict membership / lookup: `self.cache[key]` on the first (unique) entry
with that key. -/
def cacheFind (c : Cache) (k : String) : Option CacheEntry :=
  (c : List CacheEntry).find? (fun e => e.key = k)

/-- `del self.cache[key]`. -/
def cacheRemove (c : Cache) (k : String) : Cache :=
  (c : List CacheEntry).filter (fun e => ¬ e.key = k)

/-- `self.cache[key] = entry`: replace in place if the key is present
(keeping its position), otherwise append (Python dict insertion order). -/
def cacheInsert (c : Cache) (e : CacheEntry) : Cache :=
  if (cacheFind c e.key).isSome then
    (c : List CacheEntry).map (fun x => if x.key = e.key then e else x)
  else
    (c : List CacheEntry) ++ [e]

/-- Python `min` by `accessed_at` over the remaining elements, seeded with
the first: the running minimum is replaced only on a strictly smaller
value, so the first minimal element wins. -/
def pyMin (a : CacheEntry) (l : List CacheEntry) : CacheEntry :=
  l.foldl (fun m x => if x.accessedAt < m.accessedAt then x else m) a

/-- `min(self.cache.keys(), key=lambda k: self.cache[k].accessed_at)`:
the first element in dict iteration order with minimal `accessed_at`. -/
def minAccessed : Cache → Option CacheEntry
  | ([] : List CacheEntry) => none
  | (e :: rest : List CacheEntry) => some (pyMin e rest)

/-- `DistributedCache._evict_entries`: remove the LRU entry (no-op on an
empty cache). -/
def evictEntries (c : Cache) : Cache :=
  match minAccessed c with
  | none => c
  | some m => cacheRemove c m.key

namespace DistributedCache

/-- `DistributedCache.get` at clock reading `now`: returns the updated cache
and the looked-up value. -/
def get (c : Cache) (k : String) (now : Nat) : Cache × Option Int :=
  match cacheFind c k with
  | none => (c, none)
  | some e =>
    -- Check if expired
    if e.isExpired now then (cacheRemove c k, none)
    -- Update access statistics (entry.access())
    else
      ((c : List CacheEntry).map
          (fun x => if x.key = k then
              { x with accessedAt := now, accessCount := x.accessCount + 1 }
            else x),
        some e.value)

/-- `DistributedCache.set` at clock reading `now` with capacity `maxSize`. -/
def set (c : Cache) (k : String) (v : Int) (ttl : Option Nat) (now : Nat)
    (maxSize : Nat) : Cache :=
  -- Check if we need to evict entries
  let c1 := if c.length ≥ maxSize ∧ (cacheFind c k).isNone then evictEntries c else c
  -- Create new entry
  cacheInsert c1 (CacheEntry.mk0 k v ttl now)

/-- `DistributedCache.delete`. -/
def delete (c : Cache) (k : String) : Cache :=
  cacheRemove c k

/-- `DistributedCache.clear`. -/
def clear (_ : Cache) : Cache :=
  ([] : List CacheEntry)

/-- `DistributedCache.apply_command` at clock reading `now` (unknown
operations only log a warning). -/
def apply_command (c : Cache) (cmd : Command) (now : Nat) (maxSize : Nat) : Cache :=
  match cmd with
  | Command.set k v ttl => set c k v ttl now maxSize
  | Command.del k => delete c k
  | Command.clear => clear c
  | Command.unknown => c

/-- Apply a sequence of commands, each with its own apply-time clock reading. -/
def applyCommands (maxSize : Nat) (cmds : List (Command × Nat)) : Cache :=
  cmds.foldl (fun c p => apply_command c p.1 p.2 maxSize) ([] : List CacheEntry)

end DistributedCache

/-! ## HTTP write surface (`http_server.py`) -/

/-- Outcome of a client write request, abstracting the HTTP status codes of
`http_server.py` (`200`, `400`, `500`, `307` redirect with leader info,
`503` no leader available). -/
inductive WriteResponse where
  | ok
  | badRequest
  | serverError
  | redirect (leaderId : String)
  | unavailable
deriving DecidableEq, Repr

/-- `CacheHTTPServer._get_leader_info`: returns leader info only when this
node itself is the leader, otherwise `None`. -/
def getLeaderInfo (node : RaftState) : Option String :=
  if node.state = NodeState.leader then some node.nodeId else none

/-- `CacheHTTPServer.set_key` (POST /cache/key). -/
def set_key (node : RaftState) (key : String) (value : Option Int)
    (ttl : Option Nat) (responses : String → Option AppendResponse) :
    RaftState × WriteResponse :=
  match value with
  | none => (node, WriteResponse.badRequest)
  | some v =>
    if node.state = NodeState.leader then
      let out := propose_command node (Command.set key v ttl) responses
      (out.1, if out.2 then WriteResponse.ok else WriteResponse.serverError)
    else
      -- Forward to leader if known
      match getLeaderInfo node with
      | some l => (node, WriteResponse.redirect l)
      | none => (node, WriteResponse.unavailable)

/-- `CacheHTTPServer.delete_key` (DELETE /cache/key). -/
def delete_key (node : RaftState) (key : String)
    (responses : String → Option AppendResponse) : RaftState × WriteResponse :=
  if node.state = NodeState.leader then
    let out := propose_command node (Command.del key) responses
    (out.1, if out.2 then WriteResponse.ok else WriteResponse.serverError)
  else
    match getLeaderInfo node with
    | some l => (node, WriteResponse.redirect l)
    | none => (node, WriteResponse.unavailable)

/-- `CacheHTTPServer.clear_cache` (DELETE /cache). -/
def clear_cache (node : RaftState)
    (responses : String → Option AppendResponse) : RaftState × WriteResponse :=
  if node.state = NodeState.leader then
    let out := propose_command node Command.clear responses
    (out.1, if out.2 then WriteResponse.ok else WriteResponse.serverError)
  else
    match getLeaderInfo node with
    | some l => (node, WriteResponse.redirect l)
    | none => (node, WriteResponse.unavailable)

/-! ## Concrete states and requests used in the theorems below -/

/-- Log entry 1 (term 1). -/
def entryOne : LogEntry := { term := 1, command := Command.del "x", index := 1 }

/-- Log entry 2 (term 1). -/
def entryTwo : LogEntry := { term := 1, command := Command.del "y", index := 2 }

/-- Log entry 3 (term 1). -/
def entryThree : LogEntry := { term := 1, command := Command.del "z", index := 3 }

/-- A follower in a 3-node cluster holding a 3-entry log, all of term 1. -/
def followerState3 : RaftState :=
  { nodeId := "n2", cluster := ["n1", "n2", "n3"], state := NodeState.follower,
    currentTerm := 1, votedFor := some "n1", log := [entryOne, entryTwo, entryThree],
    commitIndex := 0, lastApplied := 0, nextIndex := [], matchIndex := [],
    lastHeartbeat := 0 }

/-- AppendEntries whose single incoming entry agrees in term with the
existing entry at its position (`prevLogIndex + 1 = 2`). -/
def aeNoConflictReq : AppendRequest :=
  { term := 1, leaderId := "n1", prevLogIndex := 1, prevLogTerm := 1,
    entries := [entryTwo], leaderCommit := 0 }

/-- AppendEntries heartbeat (empty entries) with `leaderCommit = 3`,
`prevLogIndex = 1`. -/
def aeHeartbeatReq : AppendRequest :=
  { term := 1, leaderId := "n1", prevLogIndex := 1, prevLogTerm := 1,
    entries := [], leaderCommit := 3 }

/-- AppendEntries carrying one entry with `leaderCommit = 2`. -/
def aeAppendCommitReq : AppendRequest :=
  { term := 1, leaderId := "n1", prevLogIndex := 1, prevLogTerm := 1,
    entries := [entryTwo], leaderCommit := 2 }

/-- A freshly started follower (term 0, empty log) in a 3-node cluster. -/
def freshFollower : RaftState :=
  { nodeId := "n2", cluster := ["n1", "n2", "n3"], state := NodeState.follower,
    currentTerm := 0, votedFor := none, log := [],
    commitIndex := 0, lastApplied := 0, nextIndex := [], matchIndex := [],
    lastHeartbeat := 0 }

/-- A valid empty AppendEntries from leader n1 at term 1. -/
def bootstrapAppend : AppendRequest :=
  { term := 1, leaderId := "n1", prevLogIndex := 0, prevLogTerm := 0,
    entries := [], leaderCommit := 0 }

/-- Leader n1 at term 1 with an empty log in a 3-node cluster. -/
def leaderStateOne : RaftState :=
  { nodeId := "n1", cluster := ["n1", "n2", "n3"], state := NodeState.leader,
    currentTerm := 1, votedFor := some "n1", log := [],
    commitIndex := 0, lastApplied := 0,
    nextIndex := [("n2", 1), ("n3", 1)], matchIndex := [("n2", 0), ("n3", 0)],
    lastHeartbeat := 0 }

/-- Replication round in which n2 acknowledges but n3 answers with the
higher term 2. -/
def mixedResponses : String → Option AppendResponse := fun n =>
  if n = "n2" then some { term := 1, success := true }
  else if n = "n3" then some { term := 2, success := false }
  else none

/-- Replication round in which every peer acknowledges at term 1. -/
def okResponses : String → Option AppendResponse := fun _ =>
  some { term := 1, success := true }

/-- A RequestVote from candidate n3 at term 2 with an empty log. -/
def voteReqTwo : VoteRequest :=
  { term := 2, candidateId := "n3", lastLogIndex := 0, lastLogTerm := 0 }

/-- Cache built by `set("b",2)` and `set("a",1)` under the same clock
reading 5: two entries tied on `accessed_at`, with the lexicographically
smaller key "a" inserted second. -/
def tiedCache : Cache :=
  DistributedCache.set (DistributedCache.set ([] : List CacheEntry) "b" 2 none 5 2)
    "a" 1 none 5 2

/-- The entry `set("b",2)` put into `tiedCache`. -/
def tiedBEntry : CacheEntry := CacheEntry.mk0 "b" 2 none 5

/-- The S6 command sequence `set("a",1); set("b",2); set("c",3)` with
increasing apply times. -/
def s6Commands : List (Command × Nat) :=
  [(Command.set "a" 1 none, 1), (Command.set "b" 2 none, 2), (Command.set "c" 3 none, 3)]

end RaftDemo

namespace RaftDemo

/-! ## Claims -/

/-- C1 The claim states that a successful AppendEntries with non-empty
entries discards existing entries only from the first term-conflicting
position. The code (`raft_node.py` lines 352-354) instead truncates at
`prevLogIndex` unconditionally: on a follower whose log is
`[entryOne, entryTwo, entryThree]` (all term 1), a successful request with
`prevLogIndex = 1` carrying the single entry `entryTwo` — which agrees in
term with the existing entry at position 2, so nothing conflicts — leaves a
log of length 2: the non-conflicting entry at position 3 is discarded. -/
theorem C1_truncation_drops_nonconflicting_suffix :
    (handle_append_entries followerState3 aeNoConflictReq 7).2.success = true ∧
    aeNoConflictReq.entries = [entryTwo] ∧
    termAt followerState3.log (aeNoConflictReq.prevLogIndex + 1) = entryTwo.term ∧
    followerState3.log.length = 3 ∧
    ((handle_append_entries followerState3 aeNoConflictReq 7).1.log.map
      (fun e => e.index)) = [1, 2] := by
  decide

/-- C4 counterexample: on a successful heartbeat (empty entries list) with
`prevLogIndex = 1` and `leaderCommit = 3` against a 3-entry log, the code
sets `commitIndex = min(leaderCommit, len(log)) = 3`, not
`min(leaderCommit, prevLogIndex + len(entries)) = 1` as claimed. -/
theorem C4_heartbeat_commit_uses_log_length :
    (handle_append_entries followerState3 aeHeartbeatReq 7).2.success = true ∧
    aeHeartbeatReq.entries = [] ∧
    (handle_append_entries followerState3 aeHeartbeatReq 7).1.commitIndex = 3 ∧
    (handle_append_entries followerState3 aeHeartbeatReq 7).1.commitIndex ≠
      min aeHeartbeatReq.leaderCommit
        (aeHeartbeatReq.prevLogIndex + aeHeartbeatReq.entries.length) := by
  decide

/-- C10 Whenever the node is not the leader, `propose_command` returns
`false` and leaves the whole node state (in particular log, currentTerm,
commitIndex and lastApplied) unchanged. -/
theorem C10_propose_rejected_when_not_leader
    (st : RaftState) (cmd : Command) (responses : String → Option AppendResponse)
    (h : st.state ≠ NodeState.leader) :
    propose_command st cmd responses = (st, false) := by
  unfold propose_command
  simp [h]

/-- C10 witness: a follower rejects a proposal unchanged. -/
theorem C10_witness :
    propose_command freshFollower Command.clear (fun _ => none) =
      (freshFollower, false) :=
  C10_propose_rejected_when_not_leader freshFollower Command.clear
    (fun _ => none) (by decide)

/-- C5 counterexample: a follower that has just handled a valid
AppendEntries from live leader n1 (success = true) answers a write with the
unavailable indicator, not with a redirect naming n1, because
`_get_leader_info` returns leader info only when the node itself is the
leader and no leader hint is recorded. -/
theorem C5_follower_write_unavailable_after_heartbeat :
    (handle_append_entries freshFollower bootstrapAppend 3).2.success = true ∧
    (handle_append_entries freshFollower bootstrapAppend 3).1.state =
      NodeState.follower ∧
    (set_key (handle_append_entries freshFollower bootstrapAppend 3).1 "k"
      (some 1) none (fun _ => none)).2 = WriteResponse.unavailable := by
  decide

/-- C5 amended: every write request (set, delete or clear) received by a
node that is not the leader is answered with the unavailable indicator; the
redirect branch is unreachable because `_get_leader_info` returns leader
info only for the node that is itself the leader (the node records no
leader hint). -/
theorem C5_nonleader_writes_unavailable
    (node : RaftState) (key : String) (v : Int) (ttl : Option Nat)
    (responses : String → Option AppendResponse)
    (h : node.state ≠ NodeState.leader) :
    (set_key node key (some v) ttl responses).2 = WriteResponse.unavailable ∧
    (delete_key node key responses).2 = WriteResponse.unavailable ∧
    (clear_cache node responses).2 = WriteResponse.unavailable := by
  unfold set_key delete_key clear_cache getLeaderInfo
  simp [h]

/-- C5 witness: the amended statement at a concrete follower. -/
theorem C5_witness :
    (set_key freshFollower "k" (some 1) none (fun _ => none)).2 =
        WriteResponse.unavailable ∧
    (delete_key freshFollower "k" (fun _ => none)).2 =
        WriteResponse.unavailable ∧
    (clear_cache freshFollower (fun _ => none)).2 =
        WriteResponse.unavailable :=
  C5_nonleader_writes_unavailable freshFollower "k" 1 none (fun _ => none)
    (by decide)

/-- C3 The RequestVote handler grants the vote iff the request term is not
below the node's currentTerm, votedFor — after the reset that accompanies
the adoption of a strictly larger request term (spec §4.5 step 2) — is none
or equals the candidate, and the candidate's log is up-to-date
(`lastLogTerm` greater than ours, or equal with `lastLogIndex` at least our
last index, both zero for an empty log); on granting it sets votedFor to
the candidate and resets the election timer to the current clock reading. -/
theorem C3_request_vote_grant_iff (st : RaftState) (req : VoteRequest) (now : Nat) :
    ((handle_request_vote st req now).2.voteGranted = true ↔
      (req.term ≥ st.currentTerm ∧
        (req.term > st.currentTerm ∨ st.votedFor = none ∨
          st.votedFor = some req.candidateId) ∧
        (req.lastLogTerm > lastLogTermOf st.log ∨
          (req.lastLogTerm = lastLogTermOf st.log ∧
            req.lastLogIndex ≥ st.log.length)))) ∧
    ((handle_request_vote st req now).2.voteGranted = true →
      (handle_request_vote st req now).1.votedFor = some req.candidateId ∧
      (handle_request_vote st req now).1.lastHeartbeat = now) := by
  unfold handle_request_vote
  by_cases h : req.term > st.currentTerm
  · simp only [if_pos h]
    split_ifs with h2 h3 <;> simp_all <;> omega
  · simp only [if_neg h]
    split_ifs with h2 h3 <;> simp_all <;> omega

/-- C3 witness: a fresh follower grants candidate n3's term-2 request,
records the vote and resets its election timer to the clock reading 9. -/
theorem C3_witness :
    (handle_request_vote freshFollower voteReqTwo 9).1.votedFor = some "n3" ∧
    (handle_request_vote freshFollower voteReqTwo 9).1.lastHeartbeat = 9 :=
  (C3_request_vote_grant_iff freshFollower voteReqTwo 9).2 (by decide)

/-! Helper lemmas about the replication round. -/

lemma sendAE_frame (st : RaftState) (peer : String) (resp : Option AppendResponse) :
    (sendAppendEntries st peer resp).log = st.log ∧
    (sendAppendEntries st peer resp).commitIndex = st.commitIndex ∧
    (sendAppendEntries st peer resp).cluster = st.cluster ∧
    (sendAppendEntries st peer resp).nodeId = st.nodeId := by
  unfold sendAppendEntries
  cases resp <;> simp <;> split_ifs <;> simp

lemma sendAE_term_eq (st : RaftState) (peer : String) (resp : Option AppendResponse)
    (h : ∀ r, resp = some r → r.term ≤ st.currentTerm) :
    (sendAppendEntries st peer resp).currentTerm = st.currentTerm := by
  unfold sendAppendEntries
  cases resp with
  | none => simp
  | some r =>
    have := h r rfl
    simp only []
    split_ifs <;> simp_all <;> omega

lemma foldAE_frame (l : List String) (responses : String → Option AppendResponse) :
    ∀ (st : RaftState),
    (l.foldl (fun s n => sendAppendEntries s n (responses n)) st).log = st.log ∧
    (l.foldl (fun s n => sendAppendEntries s n (responses n)) st).commitIndex = st.commitIndex ∧
    (l.foldl (fun s n => sendAppendEntries s n (responses n)) st).cluster = st.cluster ∧
    (l.foldl (fun s n => sendAppendEntries s n (responses n)) st).nodeId = st.nodeId := by
  induction l with
  | nil => intro st; simp
  | cons x xs ih =>
    intro st
    have h1 := sendAE_frame st x (responses x)
    have h2 := ih (sendAppendEntries st x (responses x))
    simp only [List.foldl_cons] at *
    exact ⟨h2.1.trans h1.1, (h2.2.1).trans h1.2.1, (h2.2.2.1).trans h1.2.2.1,
      (h2.2.2.2).trans h1.2.2.2⟩

lemma foldAE_term (l : List String) (responses : String → Option AppendResponse) :
    ∀ (st : RaftState),
    (∀ n r, responses n = some r → r.term ≤ st.currentTerm) →
    (l.foldl (fun s n => sendAppendEntries s n (responses n)) st).currentTerm
      = st.currentTerm := by
  induction l with
  | nil => intro st _; simp
  | cons x xs ih =>
    intro st h
    have h1 := sendAE_term_eq st x (responses x) (fun r hr => h x r hr)
    simp only [List.foldl_cons]
    rw [ih (sendAppendEntries st x (responses x)) (fun n r hr => h1 ▸ h n r hr)]
    exact h1

lemma markCommitted_terms : ∀ (lo hi : Nat) (log : List LogEntry),
    (markCommitted lo hi log).map (fun e => e.term) = log.map (fun e => e.term) := by
  intro lo hi log
  induction log generalizing lo hi with
  | nil => simp [markCommitted]
  | cons e rest ih =>
    simp only [markCommitted, List.map_cons, ih]
    split_ifs <;> simp

lemma termAt_eq_mapTerm (log : List LogEntry) (i : Nat) :
    termAt log i = ((log.map (fun e => e.term)).get? (i - 1)).getD 0 := by
  simp [termAt, List.get?_map]

lemma termAt_append_last (log : List LogEntry) (e : LogEntry) :
    termAt (log ++ [e]) (log.length + 1) = e.term := by
  simp [termAt, List.get?_concat_length]

lemma processAppendRound_frame (st : RaftState) (responses : String → Option AppendResponse) :
    (processAppendRound st responses).log = st.log ∧
    (processAppendRound st responses).commitIndex = st.commitIndex ∧
    (processAppendRound st responses).cluster = st.cluster ∧
    (processAppendRound st responses).nodeId = st.nodeId := by
  unfold processAppendRound
  exact foldAE_frame (st.cluster.filter (fun n => n ≠ st.nodeId)) responses st

lemma processAppendRound_term (st : RaftState) (responses : String → Option AppendResponse)
    (h : ∀ n r, responses n = some r → r.term ≤ st.currentTerm) :
    (processAppendRound st responses).currentTerm = st.currentTerm := by
  unfold processAppendRound
  exact foldAE_term (st.cluster.filter (fun n => n ≠ st.nodeId)) responses st h

lemma replicateEntry_spec (st : RaftState) (entry : LogEntry)
    (responses : String → Option AppendResponse)
    (hresp : ∀ n r, responses n = some r → r.term ≤ st.currentTerm)
    (hci : st.commitIndex < entry.index)
    (hok : (replicateEntry st entry responses).2 = true) :
    replicatedCount (replicateEntry st entry responses).1 entry.index ≥
      majorityOf (replicateEntry st entry responses).1 ∧
    (replicateEntry st entry responses).1.commitIndex = entry.index ∧
    (replicateEntry st entry responses).1.currentTerm = st.currentTerm ∧
    (replicateEntry st entry responses).1.log.map (fun e => e.term) =
      st.log.map (fun e => e.term) := by
  have hframe := processAppendRound_frame st responses
  have hterm := processAppendRound_term st responses hresp
  simp only [replicateEntry] at hok ⊢
  split_ifs at hok ⊢ with h1 h2
  · refine ⟨?_, ?_, ?_, ?_⟩
    · simpa [replicatedCount, majorityOf, applyCommittedEntries] using h1
    · simp [applyCommittedEntries]
    · simpa [applyCommittedEntries] using hterm
    · simp only [applyCommittedEntries]
      rw [markCommitted_terms]
      exact congrArg (List.map (fun e => e.term)) hframe.1
  · exact absurd (hframe.2.1 ▸ h2) (by omega)

/-- C2 counterexample: leader n1 at term 1 proposes an entry; follower n2
acknowledges it, but n3's response carries the higher term 2 and is
processed before the replication count. The node still advances
`commitIndex` to 1 by count alone, although the entry's term 1 no longer
equals `currentTerm = 2` — the claimed relation `log[N].term ==
currentTerm` is violated at the moment the entry is marked committed. -/
theorem C2_counterexample_commit_after_stepdown :
    (propose_command leaderStateOne (Command.set "k" 1 none) mixedResponses).2 = true ∧
    leaderStateOne.commitIndex = 0 ∧
    (propose_command leaderStateOne (Command.set "k" 1 none) mixedResponses).1.commitIndex = 1 ∧
    (propose_command leaderStateOne (Command.set "k" 1 none) mixedResponses).1.currentTerm = 2 ∧
    termAt (propose_command leaderStateOne (Command.set "k" 1 none) mixedResponses).1.log
        ((propose_command leaderStateOne (Command.set "k" 1 none) mixedResponses).1.commitIndex)
      ≠ (propose_command leaderStateOne (Command.set "k" 1 none) mixedResponses).1.currentTerm := by
  decide

/-- C2 amended: when a proposal succeeds, commitIndex advances to the new
entry's index N = len(log)+1, a strict majority of the cluster (counting
the leader) has matchIndex ≥ N, and — provided no AppendEntries response
processed during the round carried a term above the leader's currentTerm
(no step-down during replication) — the entry at N has term equal to
currentTerm. Without that proviso the term relation can fail, as the
counterexample shows: the code checks only the replication count, never
`log[N].term == currentTerm`. -/
theorem C2_commit_majority_and_term_when_no_stepdown
    (st : RaftState) (cmd : Command) (responses : String → Option AppendResponse)
    (hleader : st.state = NodeState.leader)
    (hci : st.commitIndex ≤ st.log.length)
    (hresp : ∀ n r, responses n = some r → r.term ≤ st.currentTerm)
    (hok : (propose_command st cmd responses).2 = true) :
    replicatedCount (propose_command st cmd responses).1 (st.log.length + 1) ≥
      majorityOf (propose_command st cmd responses).1 ∧
    (propose_command st cmd responses).1.commitIndex = st.log.length + 1 ∧
    termAt (propose_command st cmd responses).1.log
        ((propose_command st cmd responses).1.commitIndex) =
      (propose_command st cmd responses).1.currentTerm ∧
    (propose_command st cmd responses).1.currentTerm = st.currentTerm := by
  have hnl : ¬ (st.state ≠ NodeState.leader) := by simp [hleader]
  unfold propose_command at hok ⊢
  simp only [if_neg hnl] at hok ⊢
  have hspec := replicateEntry_spec
    { st with log := st.log ++
        [({ term := st.currentTerm, command := cmd, index := st.log.length + 1 } : LogEntry)] }
    ({ term := st.currentTerm, command := cmd, index := st.log.length + 1 } : LogEntry)
    responses hresp (by simpa using Nat.lt_succ_of_le hci) hok
  rcases hspec with ⟨hmaj, hcommit, hterm2, hlogmap⟩
  refine ⟨hmaj, hcommit, ?_, hterm2⟩
  rw [hcommit, hterm2, termAt_eq_mapTerm, hlogmap, ← termAt_eq_mapTerm]
  exact termAt_append_last st.log
    ({ term := st.currentTerm, command := cmd, index := st.log.length + 1 } : LogEntry)

/-- C2 witness: leader n1's proposal with both followers acknowledging at
the leader's own term commits the entry at index 1 with term = currentTerm. -/
theorem C2_witness :
    replicatedCount (propose_command leaderStateOne (Command.set "k" 1 none) okResponses).1 1 ≥
      majorityOf (propose_command leaderStateOne (Command.set "k" 1 none) okResponses).1 ∧
    (propose_command leaderStateOne (Command.set "k" 1 none) okResponses).1.commitIndex = 1 ∧
    termAt (propose_command leaderStateOne (Command.set "k" 1 none) okResponses).1.log
        ((propose_command leaderStateOne (Command.set "k" 1 none) okResponses).1.commitIndex) =
      (propose_command leaderStateOne (Command.set "k" 1 none) okResponses).1.currentTerm ∧
    (propose_command leaderStateOne (Command.set "k" 1 none) okResponses).1.currentTerm = 1 :=
  C2_commit_majority_and_term_when_no_stepdown leaderStateOne (Command.set "k" 1 none)
    okResponses (by decide) (by decide)
    (fun n r hr => by
      simp [okResponses] at hr
      simp [← hr, leaderStateOne])
    (by decide)

lemma requestVoteFrom_step (st : RaftState) (resp : Option VoteResponse) :
    st.currentTerm ≤ (requestVoteFrom st resp).1.currentTerm ∧
    (st.currentTerm < (requestVoteFrom st resp).1.currentTerm →
      (requestVoteFrom st resp).1.votedFor = none) ∧
    ((requestVoteFrom st resp).1.currentTerm = st.currentTerm →
      (requestVoteFrom st resp).1.votedFor = st.votedFor) := by
  unfold requestVoteFrom
  cases resp with
  | none => simp
  | some r => simp only []; split_ifs <;> simp_all <;> omega

lemma voteFold_invariant (base : Nat) (responses : String → Option VoteResponse) :
    ∀ (l : List String) (p : RaftState × Nat),
    base ≤ p.1.currentTerm → (base < p.1.currentTerm → p.1.votedFor = none) →
    base ≤ (l.foldl (fun (p : RaftState × Nat) n =>
        let out := requestVoteFrom p.1 (responses n)
        (out.1, if out.2 then p.2 + 1 else p.2)) p).1.currentTerm ∧
    (base < (l.foldl (fun (p : RaftState × Nat) n =>
        let out := requestVoteFrom p.1 (responses n)
        (out.1, if out.2 then p.2 + 1 else p.2)) p).1.currentTerm →
      (l.foldl (fun (p : RaftState × Nat) n =>
        let out := requestVoteFrom p.1 (responses n)
        (out.1, if out.2 then p.2 + 1 else p.2)) p).1.votedFor = none) := by
  intro l
  induction l with
  | nil => intro p h1 h2; exact ⟨h1, h2⟩
  | cons x xs ih =>
    intro p h1 h2
    simp only [List.foldl_cons]
    have hstep := requestVoteFrom_step p.1 (responses x)
    refine ih _ ?_ ?_ <;> dsimp only
    · omega
    · intro hlt
      by_cases heq : (requestVoteFrom p.1 (responses x)).1.currentTerm = p.1.currentTerm
      · rw [hstep.2.2 heq]
        exact h2 (by omega)
      · exact hstep.2.1 (by omega)

/-- C9 Across handling RequestVote, handling AppendEntries, processing an
AppendEntries response, processing a RequestVote response, and starting an
election, currentTerm never decreases (the election itself increments it by
at least one). Whenever an operation adopts a strictly larger term from a
remote message, votedFor is reset to none as part of that adoption: the
final votedFor can only be non-none after such a bump in the RequestVote
handler, where — after the reset — a fresh vote is granted to the
requesting candidate; in every other operation a remote-term bump leaves
votedFor = none (for the election, any growth beyond the self-increment
comes from a remote response and leaves votedFor = none). -/
theorem C9_term_monotone_and_vote_reset (st : RaftState) (reqV : VoteRequest) (reqA : AppendRequest)
    (now : Nat) (peer : String) (respA : Option AppendResponse)
    (respV : Option VoteResponse) (vresponses : String → Option VoteResponse) :
    (st.currentTerm ≤ (handle_request_vote st reqV now).1.currentTerm ∧
      (st.currentTerm < (handle_request_vote st reqV now).1.currentTerm →
        (handle_request_vote st reqV now).1.votedFor = none ∨
        ((handle_request_vote st reqV now).1.votedFor = some reqV.candidateId ∧
          (handle_request_vote st reqV now).2.voteGranted = true))) ∧
    (st.currentTerm ≤ (handle_append_entries st reqA now).1.currentTerm ∧
      (st.currentTerm < (handle_append_entries st reqA now).1.currentTerm →
        (handle_append_entries st reqA now).1.votedFor = none)) ∧
    (st.currentTerm ≤ (sendAppendEntries st peer respA).currentTerm ∧
      (st.currentTerm < (sendAppendEntries st peer respA).currentTerm →
        (sendAppendEntries st peer respA).votedFor = none)) ∧
    (st.currentTerm ≤ (requestVoteFrom st respV).1.currentTerm ∧
      (st.currentTerm < (requestVoteFrom st respV).1.currentTerm →
        (requestVoteFrom st respV).1.votedFor = none)) ∧
    (st.currentTerm + 1 ≤ (startElection st now vresponses).currentTerm ∧
      (st.currentTerm + 1 < (startElection st now vresponses).currentTerm →
        (startElection st now vresponses).votedFor = none)) := by
  refine ⟨?_, ?_, ?_, ?_, ?_⟩
  · unfold handle_request_vote
    by_cases h : reqV.term > st.currentTerm
    · simp only [if_pos h]
      split_ifs <;> simp_all <;> omega
    · simp only [if_neg h]
      split_ifs <;> simp_all <;> omega
  · unfold handle_append_entries
    by_cases h : reqA.term > st.currentTerm
    · simp only [if_pos h]
      split_ifs <;> simp_all [applyCommittedEntries] <;> omega
    · simp only [if_neg h]
      split_ifs <;> simp_all [applyCommittedEntries] <;> omega
  · have := sendAE_term_eq st peer respA
    unfold sendAppendEntries
    cases respA with
    | none => simp
    | some r => simp only []; split_ifs <;> simp_all <;> omega
  · exact ⟨(requestVoteFrom_step st respV).1, (requestVoteFrom_step st respV).2.1⟩
  · simp only [startElection]
    have hinv := voteFold_invariant (st.currentTerm + 1) vresponses
      (st.cluster.filter (fun n => n ≠ st.nodeId))
      (({ st with state := NodeState.candidate, currentTerm := st.currentTerm + 1, votedFor := some st.nodeId, lastHeartbeat := now } : RaftState), 1)
      (Nat.le_refl _) (fun hlt => absurd hlt (lt_irrefl _))
    split_ifs with hwin
    · constructor
      · simpa [becomeLeader] using hinv.1
      · intro hlt
        simp only [becomeLeader] at hlt ⊢
        exact hinv.2 hlt
    · constructor
      · simpa using hinv.1
      · intro hlt
        exact hinv.2 hlt


/-- C9 witness: a fresh follower adopting term 1 from an AppendEntries
message ends with votedFor = none. -/
theorem C9_witness :
    (handle_append_entries freshFollower bootstrapAppend 3).1.votedFor = none :=
  (C9_term_monotone_and_vote_reset freshFollower voteReqTwo bootstrapAppend 3 "n1"
    none none (fun _ => none)).2.1.2 (by decide)

lemma pyMin_spec (l : List CacheEntry) : ∀ (a : CacheEntry),
    (pyMin a l = a ∨ pyMin a l ∈ l) ∧
    (pyMin a l).accessedAt ≤ a.accessedAt ∧
    (∀ e ∈ l, (pyMin a l).accessedAt ≤ e.accessedAt) ∧
    (if (pyMin a l).accessedAt < a.accessedAt
     then (l.dropWhile (fun e => decide ((pyMin a l).accessedAt < e.accessedAt))).head?
        = some (pyMin a l)
     else pyMin a l = a) := by
  induction l with
  | nil =>
    intro a
    refine ⟨Or.inl rfl, Nat.le_refl _, by simp, ?_⟩
    simp [pyMin]
  | cons x xs ih =>
    intro a
    have hfold : pyMin a (x :: xs) =
        pyMin (if x.accessedAt < a.accessedAt then x else a) xs := by
      simp [pyMin, List.foldl_cons]
    by_cases hx : x.accessedAt < a.accessedAt
    · rw [if_pos hx] at hfold
      obtain ⟨hmem, hle, hall, hfirst⟩ := ih x
      rw [hfold]
      refine ⟨?_, ?_, ?_, ?_⟩
      · rcases hmem with h | h
        · exact Or.inr (by rw [h]; exact List.mem_cons_self x xs)
        · exact Or.inr (List.mem_cons_of_mem x h)
      · exact Nat.le_of_lt (Nat.lt_of_le_of_lt hle hx)
      · intro e he
        rcases List.mem_cons.mp he with h | h
        · exact h ▸ hle
        · exact hall e h
      · rw [if_pos (Nat.lt_of_le_of_lt hle hx)]
        by_cases hmx : (pyMin x xs).accessedAt < x.accessedAt
        · rw [if_pos hmx] at hfirst
          simpa [List.dropWhile_cons, hmx] using hfirst
        · rw [if_neg hmx] at hfirst
          simp [List.dropWhile_cons, hfirst]
    · rw [if_neg hx] at hfold
      obtain ⟨hmem, hle, hall, hfirst⟩ := ih a
      rw [hfold]
      refine ⟨?_, ?_, ?_, ?_⟩
      · rcases hmem with h | h
        · exact Or.inl h
        · exact Or.inr (List.mem_cons_of_mem x h)
      · exact hle
      · intro e he
        rcases List.mem_cons.mp he with h | h
        · exact h ▸ Nat.le_trans hle (Nat.le_of_not_lt hx)
        · exact hall e h
      · by_cases hma : (pyMin a xs).accessedAt < a.accessedAt
        · rw [if_pos hma]
          have hpx : (pyMin a xs).accessedAt < x.accessedAt :=
            Nat.lt_of_lt_of_le hma (Nat.le_of_not_lt hx)
          rw [if_pos hma] at hfirst
          simpa [List.dropWhile_cons, hpx] using hfirst
        · rw [if_neg hma]
          rw [if_neg hma] at hfirst
          exact hfirst

lemma minAccessed_spec (c : Cache) (m : CacheEntry) (h : minAccessed c = some m) :
    m ∈ c ∧ (∀ e ∈ c, m.accessedAt ≤ e.accessedAt) ∧
    (c.dropWhile (fun e => decide (m.accessedAt < e.accessedAt))).head? = some m := by
  match c with
  | [] => simp [minAccessed] at h
  | e :: rest =>
    simp only [minAccessed, Option.some.injEq] at h
    obtain ⟨hmem, hle, hall, hfirst⟩ := pyMin_spec rest e
    subst h
    refine ⟨?_, ?_, ?_⟩
    · rcases hmem with h | h
      · rw [h]; exact List.mem_cons_self e rest
      · exact List.mem_cons_of_mem e h
    · intro x hx
      rcases List.mem_cons.mp hx with h | h
      · exact h ▸ hle
      · exact hall x h
    · by_cases hme : (pyMin e rest).accessedAt < e.accessedAt
      · rw [if_pos hme] at hfirst
        simpa [List.dropWhile_cons, hme] using hfirst
      · rw [if_neg hme] at hfirst
        simp [List.dropWhile_cons, hfirst]

lemma cacheFind_eq_none_iff (c : Cache) (k : String) :
    cacheFind c k = none ↔ ∀ e ∈ c, ¬ e.key = k := by
  unfold cacheFind
  rw [List.find?_eq_none]
  simp

lemma cacheFind_filter_none (c : Cache) (k : String) (p : CacheEntry → Bool)
    (h : cacheFind c k = none) : cacheFind (c.filter p) k = none := by
  rw [cacheFind_eq_none_iff] at h ⊢
  intro e he
  exact h e (List.mem_of_mem_filter he)

lemma cacheFind_append_right (c : Cache) (e : CacheEntry)
    (h : cacheFind c e.key = none) : cacheFind (c ++ [e]) e.key = some e := by
  unfold cacheFind at h ⊢
  rw [List.find?_append, h]
  simp

lemma cacheFind_update (c : Cache) (k : String) (f : CacheEntry → CacheEntry)
    (hf : ∀ x, (f x).key = x.key) :
    cacheFind (c.map (fun x => if x.key = k then f x else x)) k =
      (cacheFind c k).map f := by
  induction c with
  | nil => simp [cacheFind]
  | cons x rest ih =>
    by_cases hx : x.key = k
    · simp only [cacheFind, List.map_cons, if_pos hx, List.find?_cons]
      have : ((f x).key = k) := by rw [hf x]; exact hx
      simp [this, hx]
    · simp only [cacheFind, List.map_cons, if_neg hx, List.find?_cons]
      simp only [hx, decide_eq_false hx]
      exact ih

lemma cacheFind_insert (c : Cache) (e : CacheEntry)
    (h : cacheFind c e.key = none) : cacheFind (cacheInsert c e) e.key = some e := by
  unfold cacheInsert
  rw [h]
  simp only [Option.isSome_none, Bool.false_eq_true, if_false]
  exact cacheFind_append_right c e h

lemma mk0_key (k : String) (v : Int) (ttl : Option Nat) (now : Nat) :
    (CacheEntry.mk0 k v ttl now).key = k := rfl

/-- C6 counterexample: with two entries tied on `accessed_at` (created by
two `set` calls under the same clock reading), inserting a third key into a
full cache of capacity 2 evicts the FIRST-INSERTED key "b", not the
lexicographically smallest key "a" as claimed: the remaining keys are
{"a","c"}, where the claim requires {"b","c"}. -/
theorem C6_counterexample_tie_evicts_first_inserted :
    (tiedCache.map (fun e => (e.key, e.accessedAt))) = [("b", 5), ("a", 5)] ∧
    ((DistributedCache.set tiedCache "c" 3 none 7 2).map (fun e => e.key))
      = ["a", "c"] := by
  decide

/-- C6 amended: when a new key is inserted into a full cache, exactly one
existing entry is evicted before insertion: the entry `m` with the
least-recent `accessed_at`, with ties broken by the EARLIEST position in
dict iteration order (insertion order) — every entry listed before `m` has
strictly larger `accessed_at` — not by the lexicographically smallest key.
The concrete S6 scenario (maxSize 2, set a, set b, set c) still leaves
exactly the keys ["b", "c"]. -/
theorem C6_evict_least_recent_earliest_inserted :
    (∀ (c : Cache) (k : String) (v : Int) (ttl : Option Nat) (now maxSize : Nat),
      c.length = maxSize → 1 ≤ maxSize → cacheFind c k = none →
      (minAccessed c).isSome = true ∧
      (∀ m, minAccessed c = some m →
        (∀ e ∈ c, m.accessedAt ≤ e.accessedAt) ∧
        (c.dropWhile (fun e => decide (m.accessedAt < e.accessedAt))).head? = some m ∧
        DistributedCache.set c k v ttl now maxSize
          = cacheRemove c m.key ++ [CacheEntry.mk0 k v ttl now])) ∧
    (DistributedCache.applyCommands 2 s6Commands).map (fun e => e.key) = ["b", "c"] := by
  constructor
  · intro c k v ttl now maxSize hlen hmax habsent
    constructor
    · cases c with
      | nil => simp at hlen; omega
      | cons e rest => simp [minAccessed]
    · intro m hm
      obtain ⟨hmem, hall, hfirst⟩ := minAccessed_spec c m hm
      refine ⟨hall, hfirst, ?_⟩
      unfold DistributedCache.set
      have hcond : c.length ≥ maxSize ∧ (cacheFind c k).isNone = true := by
        constructor
        · omega
        · rw [habsent]; rfl
      rw [if_pos hcond]
      unfold evictEntries
      rw [hm]
      have habs2 : cacheFind (cacheRemove c m.key) k = none :=
        cacheFind_filter_none c k _ habsent
      simp [cacheInsert, mk0_key, habs2]
  · decide

lemma length_cacheRemove_lt (c : Cache) (m : CacheEntry) (hm : m ∈ c) :
    (cacheRemove c m.key).length < c.length := by
  unfold cacheRemove
  exact List.length_filter_lt_length_iff_exists.mpr ⟨m, hm, by simp⟩

lemma length_cacheInsert_le (c : Cache) (e : CacheEntry) :
    (cacheInsert c e).length ≤ c.length + 1 := by
  unfold cacheInsert
  split_ifs <;> simp

lemma length_cacheInsert_present (c : Cache) (e : CacheEntry)
    (h : (cacheFind c e.key).isSome = true) :
    (cacheInsert c e).length = c.length := by
  unfold cacheInsert
  rw [if_pos h]
  simp

lemma set_length_le (c : Cache) (k : String) (v : Int) (ttl : Option Nat)
    (now maxSize : Nat) (hmax : 1 ≤ maxSize) (hc : c.length ≤ maxSize) :
    (DistributedCache.set c k v ttl now maxSize).length ≤ maxSize := by
  unfold DistributedCache.set
  by_cases hcond : c.length ≥ maxSize ∧ (cacheFind c k).isNone = true
  · rw [if_pos hcond]
    have hlen : c.length = maxSize := Nat.le_antisymm hc hcond.1
    obtain ⟨m, hm⟩ : ∃ m, minAccessed c = some m := by
      cases c with
      | nil => simp at hlen; omega
      | cons e rest => exact ⟨pyMin e rest, rfl⟩
    unfold evictEntries
    rw [hm]
    dsimp only
    have h1 : (cacheRemove c m.key).length < c.length :=
      length_cacheRemove_lt c m (minAccessed_spec c m hm).1
    have h2 := length_cacheInsert_le (cacheRemove c m.key) (CacheEntry.mk0 k v ttl now)
    omega
  · rw [if_neg hcond]
    dsimp only
    by_cases hpres : (cacheFind c k).isSome = true
    · rw [length_cacheInsert_present c (CacheEntry.mk0 k v ttl now) (by rw [mk0_key]; exact hpres)]
      exact hc
    · have hnone : (cacheFind c k).isNone = true := by
        cases hfind : cacheFind c k with
        | none => rfl
        | some e => rw [hfind] at hpres; simp at hpres
      have hlt : ¬ c.length ≥ maxSize := fun hge => hcond ⟨hge, hnone⟩
      have h2 := length_cacheInsert_le c (CacheEntry.mk0 k v ttl now)
      omega

lemma apply_command_length (c : Cache) (cmd : Command) (now maxSize : Nat)
    (hmax : 1 ≤ maxSize) (hc : c.length ≤ maxSize) :
    (DistributedCache.apply_command c cmd now maxSize).length ≤ maxSize := by
  cases cmd with
  | set k v ttl => exact set_length_le c k v ttl now maxSize hmax hc
  | del k =>
    have := List.length_filter_le (fun e => ¬ e.key = k : CacheEntry → Bool) c
    simpa [DistributedCache.apply_command, DistributedCache.delete, cacheRemove]
      using Nat.le_trans this hc
  | clear => simp [DistributedCache.apply_command, DistributedCache.clear]
  | unknown => exact hc

/-- C7 Starting from an empty cache, after every applied command sequence
(set, delete, clear, unknown — hence after each individual command, each
prefix being a sequence itself) the number of entries is at most `maxSize`,
for any positive capacity (the configured `MAX_CACHE_SIZE` is 10000). -/
theorem C7_cache_size_bounded (cmds : List (Command × Nat)) (maxSize : Nat) (hmax : 1 ≤ maxSize) :
    (DistributedCache.applyCommands maxSize cmds).length ≤ maxSize := by
  suffices h : ∀ (l : List (Command × Nat)) (c : Cache), c.length ≤ maxSize →
      (l.foldl (fun c p => DistributedCache.apply_command c p.1 p.2 maxSize) c).length
        ≤ maxSize by
    exact h cmds ([] : List CacheEntry) (by simp)
  intro l
  induction l with
  | nil => intro c hc; exact hc
  | cons p rest ih =>
    intro c hc
    simp only [List.foldl_cons]
    exact ih _ (apply_command_length c p.1 p.2 maxSize hmax hc)


lemma cacheFind_replace (c : Cache) (k : String) (e : CacheEntry) (he : e.key = k)
    (h : (cacheFind c k).isSome = true) :
    cacheFind (c.map (fun x => if x.key = k then e else x)) k = some e := by
  induction c with
  | nil => simp [cacheFind] at h
  | cons x rest ih =>
    by_cases hx : x.key = k
    · simp [cacheFind, List.find?_cons, hx, he]
    · have h2 : (cacheFind rest k).isSome = true := by
        simpa [cacheFind, List.find?_cons, hx] using h
      simpa [cacheFind, List.find?_cons, hx] using ih h2

lemma cacheFind_insert_self (c : Cache) (e : CacheEntry) :
    cacheFind (cacheInsert c e) e.key = some e := by
  unfold cacheInsert
  by_cases h : (cacheFind c e.key).isSome = true
  · rw [if_pos h]
    exact cacheFind_replace c e.key e rfl h
  · rw [if_neg h]
    have hnone : cacheFind c e.key = none := by
      cases hfind : cacheFind c e.key with
      | none => rfl
      | some x => rw [hfind] at h; simp at h
    exact cacheFind_append_right c e hnone

lemma cacheFind_set (c : Cache) (k : String) (v : Int) (ttl : Option Nat)
    (t0 maxSize : Nat) :
    cacheFind (DistributedCache.set c k v ttl t0 maxSize) k =
      some (CacheEntry.mk0 k v ttl t0) := by
  unfold DistributedCache.set
  have := cacheFind_insert_self
    (if c.length ≥ maxSize ∧ (cacheFind c k).isNone = true then evictEntries c else c)
    (CacheEntry.mk0 k v ttl t0)
  rwa [mk0_key] at this

lemma cacheFind_remove_self (c : Cache) (k : String) :
    cacheFind (cacheRemove c k) k = none := by
  rw [cacheFind_eq_none_iff]
  intro e he
  have := List.of_mem_filter he
  simpa using this

/-- C8 amended: a `get(k)` after `set(k, v, ttl)` with no intervening write
returns v while the TTL has not elapsed (`t1 ≤ t0 + ttl`, or no TTL),
setting the entry's `accessed_at` to the read time and `access_count` to 1;
if a NONZERO TTL has elapsed (`t0 + ttl < t1`), the get removes the entry
and returns absent. A TTL of 0 is excluded: Python's truthiness test
`if ttl` treats `ttl = 0` like `ttl = None`, so such an entry never
expires (see the counterexample). -/
theorem C8_get_after_set (c : Cache) (k : String) (v : Int) (ttl : Option Nat)
    (t0 t1 maxSize : Nat) :
    ((∀ τ, ttl = some τ → t1 ≤ t0 + τ) →
      (DistributedCache.get (DistributedCache.set c k v ttl t0 maxSize) k t1).2 = some v ∧
      cacheFind (DistributedCache.get (DistributedCache.set c k v ttl t0 maxSize) k t1).1 k
        = some { CacheEntry.mk0 k v ttl t0 with accessedAt := t1, accessCount := 1 }) ∧
    (∀ τ, ttl = some τ → 1 ≤ τ → t0 + τ < t1 →
      (DistributedCache.get (DistributedCache.set c k v ttl t0 maxSize) k t1).2 = none ∧
      cacheFind (DistributedCache.get (DistributedCache.set c k v ttl t0 maxSize) k t1).1 k
        = none) := by
  have hfind := cacheFind_set c k v ttl t0 maxSize
  constructor
  · intro hwithin
    have hexp : (CacheEntry.mk0 k v ttl t0).isExpired t1 = false := by
      unfold CacheEntry.isExpired CacheEntry.mk0
      cases ttl with
      | none => simp
      | some τ =>
        simp only []
        split_ifs with h0
        · simp only []
          have := hwithin τ rfl
          simp
          omega
        · simp
    unfold DistributedCache.get
    rw [hfind]
    simp only [hexp, Bool.false_eq_true, if_false]
    constructor
    · rfl
    · have := cacheFind_update (DistributedCache.set c k v ttl t0 maxSize) k
        (fun x => { x with accessedAt := t1, accessCount := x.accessCount + 1 })
        (fun x => rfl)
      rw [this, hfind]
      rfl
  · intro τ hτ h1 hlt
    subst hτ
    have hexp : (CacheEntry.mk0 k v (some τ) t0).isExpired t1 = true := by
      unfold CacheEntry.isExpired CacheEntry.mk0
      simp only []
      rw [if_pos (by omega : τ ≠ 0)]
      simp only []
      simp
      omega
    unfold DistributedCache.get
    rw [hfind]
    simp [hexp, cacheFind_remove_self]


/-- C6 witness: the amended eviction rule evaluated on the tied cache — the
first-inserted minimal entry (key "b") is the one removed. -/
theorem C6_witness :
    DistributedCache.set tiedCache "c" 3 none 7 2
      = cacheRemove tiedCache tiedBEntry.key ++ [CacheEntry.mk0 "c" 3 none 7] :=
  (((C6_evict_least_recent_earliest_inserted).1 tiedCache "c" 3 none 7 2
    (by decide) (by decide) (by decide)).2 tiedBEntry (by decide)).2.2

/-- C7 witness: the S6 command sequence with capacity 2 never exceeds two
entries. -/
theorem C7_witness :
    (DistributedCache.applyCommands 2 s6Commands).length ≤ 2 :=
  C7_cache_size_bounded s6Commands 2 (by decide)

/-- C8 counterexample: an entry stored with `ttl = 0` is read back long
after its TTL elapsed — `expires_at = created_at + ttl if ttl else None`
leaves `expires_at = None` for a zero TTL, so the entry never expires,
where the claim requires removal and absence. -/
theorem C8_counterexample_zero_ttl :
    (DistributedCache.get
        (DistributedCache.set ([] : List CacheEntry) "k" 1 (some 0) 10 MAX_CACHE_SIZE)
        "k" 99).2 = some 1 ∧
    10 + 0 < 99 := by
  decide

/-- C8 witness: within-TTL read-back at a concrete input, with the access
statistics updated. -/
theorem C8_witness :
    (DistributedCache.get (DistributedCache.set ([] : List CacheEntry) "k" 5 (some 4) 10 100) "k" 13).2 = some 5 ∧
    cacheFind (DistributedCache.get (DistributedCache.set ([] : List CacheEntry) "k" 5 (some 4) 10 100) "k" 13).1 "k"
      = some { CacheEntry.mk0 "k" 5 (some 4) 10 with accessedAt := 13, accessCount := 1 } :=
  (C8_get_after_set ([] : List CacheEntry) "k" 5 (some 4) 10 13 100).1
    (fun t ht => by simp at ht; omega)

end RaftDemo
